import Mathlib

/-!
Verification of `codeout.py` (the `CodeOut` code-generation text buffer).

The buffer state is embedded as a Lean structure; each public method of the
`CodeOut` class becomes a Lean function on that structure.  Python's
`io.StringIO` storage is modelled as an append-only `String` field
(`contents`), which is exactly how the methods under verification use it.
Python `int` counters that are only ever incremented (`_line`, `_col`,
`_off`) are `Nat`; the indentation `_level` is `Int` because the public
`level` setter stores arbitrary integers.  A method that can raise
(`unindent`, whose `assert` can fail) returns `Option`.
-/

/-- Python string repetition `s * n`: `n` copies of `s` when `n > 0`,
the empty string when `n <= 0` (as in CPython). -/
def pyStrMul (s : String) (n : Int) : String :=
  String.join (List.replicate n.toNat s)

/-- State of a `CodeOut` instance: fields `_fn`, `_tab`, `_ind`, `_level`,
`_line`, `_col`, `_off` of `codeout.py`, plus the `io.StringIO` storage as
`contents`. -/
structure CodeOut where
  fn : String
  tab : String
  ind : String
  level : Int
  line : Nat
  col : Nat
  off : Nat
  contents : String
  deriving Repr, DecidableEq

/-- One step of the character scan in `CodeOut.write`: the loop body
`if ch == '\n': line += 1; col = 0 else: col += 1; off += 1` acting on
the state triple `(line, col, off)`. -/
def scanStep (st : Nat × Nat × Nat) (ch : Char) : Nat × Nat × Nat :=
  if ch = '\n' then (st.1 + 1, 0, st.2.2 + 1) else (st.1, st.2.1 + 1, st.2.2 + 1)

/-- `CodeOut._update_indent`: `self._ind = self._tab * self._level`. -/
def CodeOut.updateIndent (b : CodeOut) : CodeOut :=
  { b with ind := pyStrMul b.tab b.level }

/-- `CodeOut.write`: scans `text` character by character updating
`_line`, `_col`, `_off`, then appends `text` to the underlying buffer. -/
def CodeOut.write (b : CodeOut) (text : String) : CodeOut :=
  let st := text.data.foldl scanStep (b.line, b.col, b.off)
  { b with line := st.1, col := st.2.1, off := st.2.2,
           contents := b.contents ++ text }

/-- `CodeOut.__init__(fn, init, tab)`: zero-initialises the counters and the
cached indentation, then, if the seed `ini` is non-empty (Python truthiness
of a string), writes it through `write`. -/
def CodeOut.mkNew (fn ini tab : String) : CodeOut :=
  let b : CodeOut :=
    { fn := fn, tab := tab, ind := "", level := 0,
      line := 0, col := 0, off := 0, contents := "" }
  if ini.isEmpty then b else b.write ini

/-- `CodeOut.indent`: `self._level += 1; self._update_indent()`. -/
def CodeOut.indent (b : CodeOut) : CodeOut :=
  CodeOut.updateIndent { b with level := b.level + 1 }

/-- `CodeOut.unindent`: `self._level -= 1; assert(self._level >= 0);
self._update_indent()`.  The decrement happens before the assert; a failed
assert raises, modelled as `none`. -/
def CodeOut.unindent (b : CodeOut) : Option CodeOut :=
  let b1 : CodeOut := { b with level := b.level - 1 }
  if 0 ≤ b1.level then some b1.updateIndent else none

/-- `CodeOut.dedent`: alias of `unindent`. -/
def CodeOut.dedent (b : CodeOut) : Option CodeOut :=
  b.unindent

/-- `CodeOut.outdent`: alias of `unindent`. -/
def CodeOut.outdent (b : CodeOut) : Option CodeOut :=
  b.unindent

/-- `CodeOut.iwrite`: `self.write(self._ind + text)`. -/
def CodeOut.iwrite (b : CodeOut) (text : String) : CodeOut :=
  b.write (b.ind ++ text)

/-- `CodeOut.write_indented`: alias of `iwrite`. -/
def CodeOut.writeIndented (b : CodeOut) (text : String) : CodeOut :=
  b.iwrite text

/-- `CodeOut.lwrite(text='')`: if `text` is falsy (empty) write a bare
newline, else `iwrite(text + '\n')`. -/
def CodeOut.lwrite (b : CodeOut) (text : String) : CodeOut :=
  if text.isEmpty then b.write "\n" else b.iwrite (text ++ "\n")

/-- `CodeOut.write_line`: alias of `lwrite`. -/
def CodeOut.writeLine (b : CodeOut) (text : String) : CodeOut :=
  b.lwrite text

/-- `CodeOut.newline`: `self.lwrite()` (no argument, i.e. empty text). -/
def CodeOut.newline (b : CodeOut) : CodeOut :=
  b.lwrite ""

/-- `CodeOut.writelines(seq)`: writes each item (already converted to its
string form by `str(item)`) via `write_line`. -/
def CodeOut.writelines (b : CodeOut) (seq : List String) : CodeOut :=
  seq.foldl (fun acc s => acc.writeLine s) b

/-- `CodeOut.format(fmt, *args, **kwargs)`: formats the template through
Python's `str.format` and writes the result via `write`.  The host
formatting facility is opaque here, so the function takes the already
formatted text and models the subsequent `self.write(text)` call. -/
def CodeOut.formatOut (b : CodeOut) (text : String) : CodeOut :=
  b.write text

/-- The `tab` property setter: `self._tab = value; self._update_indent()`. -/
def CodeOut.setTab (b : CodeOut) (value : String) : CodeOut :=
  CodeOut.updateIndent { b with tab := value }

/-- The `level` property setter: `self._level = value; self._update_indent()`.
The source performs no validation of `value`. -/
def CodeOut.setLevel (b : CodeOut) (value : Int) : CodeOut :=
  CodeOut.updateIndent { b with level := value }

/-- The `filename` property setter: `self._fn = value`. -/
def CodeOut.setFilename (b : CodeOut) (value : String) : CodeOut :=
  { b with fn := value }

/-- `CodeOut.__iconcat__` (and `__iadd__` which delegates to it): writes the
right-hand side (a string, or any value through `str(rhs)`) and returns
`self`.  The operand is taken already in string form. -/
def CodeOut.iconcat (b : CodeOut) (rhs : String) : CodeOut :=
  b.write rhs

/-- `CodeOut.__eq__`: `self.contents == s`. -/
def CodeOut.beqStr (b : CodeOut) (s : String) : Bool :=
  b.contents == s

/-- `CodeOut.__ne__`: `self.contents != s`. -/
def CodeOut.bneStr (b : CodeOut) (s : String) : Bool :=
  b.contents != s

/-- `CodeOut.__str__`: returns `self.contents`. -/
def CodeOut.toStr (b : CodeOut) : String :=
  b.contents

/-- `CodeOut.__getitem__`: indexes into `self.contents`. -/
def CodeOut.getItem (b : CodeOut) (i : Nat) : Option Char :=
  b.contents.data.get? i

/-!
Return values.  Each `...Ret` function models the same method as above but
also exposes the value the Python method returns: `some` of the (mutated)
instance for a method ending in `return self`, `none` for a method with no
return statement (Python then returns `None`).  `unindent` and its aliases
can raise, so their `Ret` form is wrapped in an outer `Option` as well.
-/

/-- `CodeOut.write` ends with `return self`. -/
def CodeOut.writeRet (b : CodeOut) (t : String) : CodeOut × Option CodeOut :=
  let b2 := b.write t
  (b2, some b2)

/-- `CodeOut.iwrite` returns the result of `self.write(...)`, i.e. `self`. -/
def CodeOut.iwriteRet (b : CodeOut) (t : String) : CodeOut × Option CodeOut :=
  let b2 := b.iwrite t
  (b2, some b2)

/-- `CodeOut.write_indented` returns the result of `self.iwrite(text)`. -/
def CodeOut.writeIndentedRet (b : CodeOut) (t : String) : CodeOut × Option CodeOut :=
  b.iwriteRet t

/-- `CodeOut.lwrite` returns the result of `self.write(...)` or
`self.iwrite(...)`, i.e. `self` in both branches. -/
def CodeOut.lwriteRet (b : CodeOut) (t : String) : CodeOut × Option CodeOut :=
  if t.isEmpty then b.writeRet "\n" else b.iwriteRet (t ++ "\n")

/-- `CodeOut.write_line` returns the result of `self.lwrite(text)`. -/
def CodeOut.writeLineRet (b : CodeOut) (t : String) : CodeOut × Option CodeOut :=
  b.lwriteRet t

/-- `CodeOut.newline` returns the result of `self.lwrite()`. -/
def CodeOut.newlineRet (b : CodeOut) : CodeOut × Option CodeOut :=
  b.lwriteRet ""

/-- `CodeOut.format` returns the result of `self.write(text)`. -/
def CodeOut.formatOutRet (b : CodeOut) (t : String) : CodeOut × Option CodeOut :=
  let b2 := b.formatOut t
  (b2, some b2)

/-- `CodeOut.indent` ends with `return self`. -/
def CodeOut.indentRet (b : CodeOut) : CodeOut × Option CodeOut :=
  let b2 := b.indent
  (b2, some b2)

/-- `CodeOut.unindent` ends with `return self` when the assert passes. -/
def CodeOut.unindentRet (b : CodeOut) : Option (CodeOut × Option CodeOut) :=
  b.unindent.map (fun b2 => (b2, some b2))

/-- `CodeOut.dedent` returns the result of `self.unindent()`. -/
def CodeOut.dedentRet (b : CodeOut) : Option (CodeOut × Option CodeOut) :=
  b.unindentRet

/-- `CodeOut.outdent` returns the result of `self.unindent()`. -/
def CodeOut.outdentRet (b : CodeOut) : Option (CodeOut × Option CodeOut) :=
  b.unindentRet

/-- `CodeOut.__iconcat__` ends with `return self`. -/
def CodeOut.iconcatRet (b : CodeOut) (s : String) : CodeOut × Option CodeOut :=
  let b2 := b.iconcat s
  (b2, some b2)

/-- `CodeOut.writelines` has no return statement, so Python returns `None`. -/
def CodeOut.writelinesRet (b : CodeOut) (seq : List String) :
    CodeOut × Option CodeOut :=
  (b.writelines seq, none)

/-!
States reachable through the public interface.
-/

/-- Buffer states reachable from construction through the public methods of
`CodeOut` (the aliases `write_indented`, `write_line`, `dedent`, `outdent`
are definitionally the methods they delegate to). -/
inductive Reach : CodeOut → Prop where
  | mkNew (fn ini tab : String) : Reach (CodeOut.mkNew fn ini tab)
  | write (b : CodeOut) (t : String) : Reach b → Reach (b.write t)
  | iwrite (b : CodeOut) (t : String) : Reach b → Reach (b.iwrite t)
  | lwrite (b : CodeOut) (t : String) : Reach b → Reach (b.lwrite t)
  | newline (b : CodeOut) : Reach b → Reach b.newline
  | writelines (b : CodeOut) (seq : List String) :
      Reach b → Reach (b.writelines seq)
  | formatOut (b : CodeOut) (t : String) : Reach b → Reach (b.formatOut t)
  | indent (b : CodeOut) : Reach b → Reach b.indent
  | unindent (b b2 : CodeOut) : Reach b → b.unindent = some b2 → Reach b2
  | setTab (b : CodeOut) (v : String) : Reach b → Reach (b.setTab v)
  | setLevel (b : CodeOut) (v : Int) : Reach b → Reach (b.setLevel v)
  | setFilename (b : CodeOut) (v : String) : Reach b → Reach (b.setFilename v)
  | iconcat (b : CodeOut) (s : String) : Reach b → Reach (b.iconcat s)

/-!
Closed forms for the character scan performed by `write`.
-/

/-- The column component of one `scanStep`. -/
def colStep (c : Nat) (ch : Char) : Nat :=
  if ch = '\n' then 0 else c + 1

/-- The number of characters after the last newline of `cs` (all of `cs`
when it contains no newline). -/
def tailRun (cs : List Char) : Nat :=
  (cs.reverse.takeWhile (fun ch => ch != '\n')).length

/-- The position counters hold the values derivable from `contents`:
`off` is its length, `line` its newline count, and `col` the number of
characters after its last newline (its whole length when it has none). -/
def countersDerived (b : CodeOut) : Prop :=
  b.off = b.contents.length ∧ b.line = b.contents.data.count '\n' ∧
    b.col = tailRun b.contents.data

/-- A fresh buffer with two-space unit brought to level 2, used to
instantiate universally quantified theorems at a concrete state. -/
def twoLevelBuf : CodeOut :=
  (CodeOut.mkNew "<string>" "" "  ").indent.indent

theorem scanStep_foldl (cs : List Char) (l c o : Nat) :
    cs.foldl scanStep (l, c, o) =
      (l + cs.count '\n', cs.foldl colStep c, o + cs.length) := by
  induction cs generalizing l c o with
  | nil => simp
  | cons ch cs ih =>
    by_cases h : ch = '\n' <;>
      simp [scanStep, colStep, h, ih, List.count_cons] <;> omega

theorem colStep_foldl (cs : List Char) (c : Nat) :
    cs.foldl colStep c = if '\n' ∈ cs then tailRun cs else c + cs.length := by
  induction cs using List.reverseRecOn with
  | nil => simp [tailRun]
  | append_singleton cs ch ih =>
    rw [List.foldl_append]
    simp only [List.foldl_cons, List.foldl_nil]
    by_cases h : ch = '\n'
    · subst h
      simp [colStep, tailRun, List.reverse_append]
    · rw [ih]
      have hrev : (cs ++ [ch]).reverse = ch :: cs.reverse := by
        simp [List.reverse_append]
      have htr : tailRun (cs ++ [ch]) = tailRun cs + 1 := by
        simp [tailRun, hrev, List.takeWhile_cons, h]
      have hmem : '\n' ∈ cs ++ [ch] ↔ '\n' ∈ cs := by
        simp [List.mem_append]
        intro heq
        exact absurd heq.symm h
      by_cases hin : '\n' ∈ cs
      · simp [colStep, h, hin, hmem, htr]
      · simp [colStep, h, hin, hmem, htr]
        omega

theorem takeWhile_append_stop (p : Char → Bool) (l l2 : List Char)
    (h : ∃ x ∈ l, ¬ p x) :
    (l ++ l2).takeWhile p = l.takeWhile p := by
  induction l with
  | nil => simp at h
  | cons a l ih =>
    by_cases hp : p a
    · obtain ⟨x, hx, hpx⟩ := h
      rcases List.mem_cons.mp hx with heq | hmem
      · exact absurd hp (heq ▸ hpx)
      · simp [List.takeWhile_cons, hp, ih ⟨x, hmem, hpx⟩]
    · simp [List.takeWhile_cons, hp]

theorem tailRun_append (xs ys : List Char) :
    tailRun (xs ++ ys) =
      if '\n' ∈ ys then tailRun ys else tailRun xs + ys.length := by
  by_cases h : '\n' ∈ ys
  · rw [if_pos h]
    unfold tailRun
    rw [List.reverse_append, takeWhile_append_stop]
    exact ⟨'\n', List.mem_reverse.mpr h, by simp⟩
  · rw [if_neg h]
    unfold tailRun
    rw [List.reverse_append, List.takeWhile_append_of_pos]
    · simp [Nat.add_comm]
    · intro a ha
      have : a ∈ ys := List.mem_reverse.mp ha
      simp only [bne_iff_ne, ne_eq]
      intro heq
      exact h (heq ▸ this)

/-!
Field-level description of `write`.
-/

theorem write_contents (b : CodeOut) (t : String) :
    (b.write t).contents = b.contents ++ t := rfl

theorem write_off (b : CodeOut) (t : String) :
    (b.write t).off = b.off + t.length := by
  simp [CodeOut.write, scanStep_foldl]

theorem write_lineCount (b : CodeOut) (t : String) :
    (b.write t).line = b.line + t.data.count '\n' := by
  simp [CodeOut.write, scanStep_foldl]

theorem write_col (b : CodeOut) (t : String) :
    (b.write t).col =
      if '\n' ∈ t.data then tailRun t.data else b.col + t.length := by
  simp [CodeOut.write, scanStep_foldl, colStep_foldl]

theorem write_ind (b : CodeOut) (t : String) : (b.write t).ind = b.ind := rfl

theorem write_tab (b : CodeOut) (t : String) : (b.write t).tab = b.tab := rfl

theorem write_level (b : CodeOut) (t : String) :
    (b.write t).level = b.level := rfl

theorem lwrite_indState (b : CodeOut) (t : String) :
    (b.lwrite t).ind = b.ind ∧ (b.lwrite t).tab = b.tab ∧
      (b.lwrite t).level = b.level := by
  unfold CodeOut.lwrite CodeOut.iwrite
  split <;> exact ⟨rfl, rfl, rfl⟩

theorem writelines_indState (seq : List String) (b : CodeOut) :
    (b.writelines seq).ind = b.ind ∧ (b.writelines seq).tab = b.tab ∧
      (b.writelines seq).level = b.level := by
  induction seq generalizing b with
  | nil => exact ⟨rfl, rfl, rfl⟩
  | cons s seq ih =>
    have hstep := lwrite_indState b s
    have hrest := ih (b.writeLine s)
    exact ⟨hrest.1.trans hstep.1, hrest.2.1.trans hstep.2.1,
      hrest.2.2.trans hstep.2.2⟩

theorem countersDerived_write (b : CodeOut) (t : String)
    (h : countersDerived b) : countersDerived (b.write t) := by
  obtain ⟨ho, hl, hc⟩ := h
  refine ⟨?_, ?_, ?_⟩
  · rw [write_off, write_contents, String.length_append, ho]
  · rw [write_lineCount, write_contents, String.data_append,
      List.count_append, hl]
  · rw [write_col, write_contents, String.data_append, tailRun_append, hc]
    by_cases hin : '\n' ∈ t.data
    · rw [if_pos hin, if_pos hin]
    · rw [if_neg hin, if_neg hin]
      rfl

theorem countersDerived_lwrite (b : CodeOut) (t : String)
    (h : countersDerived b) : countersDerived (b.lwrite t) := by
  unfold CodeOut.lwrite CodeOut.iwrite
  split
  · exact countersDerived_write b "\n" h
  · exact countersDerived_write b (b.ind ++ (t ++ "\n")) h

theorem countersDerived_writelines (seq : List String) (b : CodeOut)
    (h : countersDerived b) : countersDerived (b.writelines seq) := by
  induction seq generalizing b with
  | nil => exact h
  | cons s seq ih => exact ih (b.writeLine s) (countersDerived_lwrite b s h)

theorem countersDerived_mkNew (fn ini tab : String) :
    countersDerived (CodeOut.mkNew fn ini tab) := by
  unfold CodeOut.mkNew
  split
  · exact ⟨rfl, rfl, rfl⟩
  · exact countersDerived_write _ ini ⟨rfl, rfl, rfl⟩

/-!
Claim theorems.
-/

/-- Claim C1: `unindent` (and its aliases `dedent` and `outdent`, which
delegate to it) raises the assertion error when called at level 0, and
whenever it succeeds the resulting level is non-negative — it never
succeeds while leaving the indentation level negative. -/
theorem unindent_contract (b : CodeOut) :
    (b.level = 0 → b.unindent = none) ∧
    b.dedent = b.unindent ∧ b.outdent = b.unindent ∧
    (∀ b2 : CodeOut, b.unindent = some b2 → 0 ≤ b2.level) := by
  refine ⟨?_, rfl, rfl, ?_⟩
  · intro h
    simp [CodeOut.unindent, h]
  · intro b2 h
    simp only [CodeOut.unindent] at h
    split at h
    · next hge => cases h; exact hge
    · cases h

/-- Witness for C1: a fresh buffer sits at level 0 and its `unindent`
fails; after one `indent`, `unindent` succeeds back at level 0. -/
theorem unindent_contract_witness :
    (CodeOut.mkNew "<string>" "" "\t").unindent = none ∧
    0 ≤ (CodeOut.mkNew "<string>" "" "\t").level :=
  ⟨(unindent_contract (CodeOut.mkNew "<string>" "" "\t")).1 rfl,
   (unindent_contract ((CodeOut.mkNew "<string>" "" "\t").indent)).2.2.2
     (CodeOut.mkNew "<string>" "" "\t") (by decide)⟩

/-- Claim C2 counterexample: the `level` property setter has no assert
(unlike `unindent`), so setting a fresh buffer's level to -1 succeeds
silently: the value -1 is stored as-is (not rejected, not clamped to zero)
and the cached prefix becomes empty. -/
theorem setLevel_negative_accepted :
    ((CodeOut.mkNew "<string>" "" "\t").setLevel (-1)).level = -1 ∧
    ((CodeOut.mkNew "<string>" "" "\t").setLevel (-1)).ind = "" :=
  ⟨rfl, rfl⟩

/-- Claim C2 (amended): the `level` setter is total — every integer `v`,
negative included, is silently accepted: it is stored unclamped, the cached
prefix is recomputed as `tab * v` (the empty string whenever `v < 0`), and
the contents are untouched.  Non-negative values recompute the prefix as
the unit repeated `v` times. -/
theorem setLevel_total (b : CodeOut) (v : Int) :
    (b.setLevel v).level = v ∧
    (b.setLevel v).ind = pyStrMul b.tab v ∧
    (b.setLevel v).contents = b.contents ∧
    (v < 0 → (b.setLevel v).ind = "") := by
  refine ⟨rfl, rfl, rfl, ?_⟩
  intro hv
  show pyStrMul b.tab v = ""
  unfold pyStrMul
  rw [Int.toNat_of_nonpos (le_of_lt hv)]
  rfl

/-- Witness for C2 (amended) at a fresh buffer and `v = -2`. -/
theorem setLevel_total_witness :
    ((CodeOut.mkNew "<string>" "" "\t").setLevel (-2)).level = -2 ∧
    ((CodeOut.mkNew "<string>" "" "\t").setLevel (-2)).ind = "" :=
  ⟨(setLevel_total (CodeOut.mkNew "<string>" "" "\t") (-2)).1,
   (setLevel_total (CodeOut.mkNew "<string>" "" "\t") (-2)).2.2.2 (by decide)⟩

/-- Claim C4: `write text` appends exactly `text` to the contents; the
character scan adds the length of `text` to `offset`, adds its newline
count to `line`, and either resets `column` to the run after the last
newline of `text` or adds the length of `text` to it; consequently over any
sequence of writes `offset` grows by the total character count and `line`
by the total newline count. -/
theorem write_tracks_positions (b : CodeOut) (t : String) :
    (b.write t).contents = b.contents ++ t ∧
    (b.write t).off = b.off + t.length ∧
    (b.write t).line = b.line + t.data.count '\n' ∧
    (b.write t).col =
      (if '\n' ∈ t.data then tailRun t.data else b.col + t.length) ∧
    (∀ ts : List String,
      (ts.foldl CodeOut.write b).off = b.off + (ts.map String.length).sum ∧
      (ts.foldl CodeOut.write b).line =
        b.line + (ts.map (fun u => u.data.count '\n')).sum) := by
  refine ⟨write_contents b t, write_off b t, write_lineCount b t,
    write_col b t, ?_⟩
  intro ts
  induction ts generalizing b with
  | nil => simp
  | cons u ts ih =>
    simp only [List.foldl_cons, List.map_cons, List.sum_cons]
    obtain ⟨h1, h2⟩ := ih (b.write u)
    rw [h1, h2, write_off, write_lineCount]
    omega

/-- Claim C6: the end-to-end scenario on a fresh buffer with two-space
unit — `lwrite "<foo>"`, `indent`, `lwrite "<bar/>"`, `unindent`,
`lwrite "</foo>"` — produces exactly the expected contents and final
position counters (3, 0, 22). -/
theorem endToEnd_scenario :
    ((((CodeOut.mkNew "<string>" "" "  ").lwrite "<foo>").indent.lwrite
          "<bar/>").unindent.map (fun b => b.lwrite "</foo>")).map
        (fun b => (b.contents, b.line, b.col, b.off)) =
      some ("<foo>\n  <bar/>\n</foo>\n", 3, 0, 22) := by
  rfl

/-- Claim C3 counterexample: `writelines` has no return statement, so it
returns `None` instead of the buffer — it cannot be chained. -/
theorem writelines_breaks_chaining :
    ((CodeOut.mkNew "<string>" "" "\t").writelinesRet ["a"]).2 = none ∧
    ((CodeOut.mkNew "<string>" "" "\t").writelinesRet ["a"]).2 ≠
      some ((CodeOut.mkNew "<string>" "" "\t").writelinesRet ["a"]).1 :=
  ⟨rfl, by decide⟩

/-- Claim C3 (amended): every mutating operation except `writelines`
returns the (mutated) buffer itself, supporting fluent chaining — `write`,
`iwrite`/`write_indented`, `lwrite`/`write_line`, `newline`, `format`,
`indent`, `__iconcat__`, and `unindent` with its aliases whenever they
succeed; `writelines` alone returns `None`. -/
theorem fluent_returns (b : CodeOut) (t s : String) (ts : List String) :
    (b.writeRet t).2 = some (b.writeRet t).1 ∧
    (b.iwriteRet t).2 = some (b.iwriteRet t).1 ∧
    (b.writeIndentedRet t).2 = some (b.writeIndentedRet t).1 ∧
    (b.lwriteRet t).2 = some (b.lwriteRet t).1 ∧
    (b.writeLineRet t).2 = some (b.writeLineRet t).1 ∧
    b.newlineRet.2 = some b.newlineRet.1 ∧
    (b.formatOutRet t).2 = some (b.formatOutRet t).1 ∧
    b.indentRet.2 = some b.indentRet.1 ∧
    (b.iconcatRet s).2 = some (b.iconcatRet s).1 ∧
    (∀ p, b.unindentRet = some p → p.2 = some p.1) ∧
    (∀ p, b.dedentRet = some p → p.2 = some p.1) ∧
    (∀ p, b.outdentRet = some p → p.2 = some p.1) ∧
    (b.writelinesRet ts).2 = none := by
  have hl : ∀ u : String, (b.lwriteRet u).2 = some (b.lwriteRet u).1 := by
    intro u
    unfold CodeOut.lwriteRet
    split <;> rfl
  have hu : ∀ p, b.unindentRet = some p → p.2 = some p.1 := by
    intro p hp
    unfold CodeOut.unindentRet at hp
    cases hv : b.unindent with
    | none => rw [hv] at hp; cases hp
    | some b2 => rw [hv] at hp; simp only [Option.map_some'] at hp; cases hp; rfl
  exact ⟨rfl, rfl, rfl, hl t, hl t, hl "", rfl, rfl, rfl, hu, hu, hu, rfl⟩

/-- Witness for C3 (amended): instantiated on a fresh buffer (for the
always-returning operations) and on a buffer at level 1 whose `unindent`
succeeds and hands back the mutated instance. -/
theorem fluent_returns_witness :
    (((CodeOut.mkNew "<string>" "" "\t").writeRet "x").2 =
      some (((CodeOut.mkNew "<string>" "" "\t")).writeRet "x").1) ∧
    (CodeOut.mkNew "<string>" "" "\t",
        some (CodeOut.mkNew "<string>" "" "\t")).2 =
      some (CodeOut.mkNew "<string>" "" "\t",
        some (CodeOut.mkNew "<string>" "" "\t")).1 :=
  ⟨(fluent_returns (CodeOut.mkNew "<string>" "" "\t") "x" "y" []).1,
   ((fluent_returns ((CodeOut.mkNew "<string>" "" "\t").indent) "x" "y"
        []).2.2.2.2.2.2.2.2.2.1)
     (CodeOut.mkNew "<string>" "" "\t",
       some (CodeOut.mkNew "<string>" "" "\t")) (by decide)⟩

/-- Claim C5: `lwrite ""` (the omitted-argument call) appends exactly one
newline character and no indentation prefix, whatever the level; for
non-empty text, under the cached-prefix invariant (which holds in every
reachable state), `lwrite text` appends exactly prefix, then text, then one
newline, where the prefix is the unit repeated `level` times. -/
theorem lwrite_line_shape (b : CodeOut) (t : String) (hne : t ≠ "")
    (hind : b.ind = pyStrMul b.tab b.level) :
    (b.lwrite "").contents = b.contents ++ "\n" ∧
    (b.lwrite "").off = b.off + 1 ∧
    (b.lwrite t).contents =
      b.contents ++ (pyStrMul b.tab b.level ++ (t ++ "\n")) := by
  refine ⟨rfl, ?_, ?_⟩
  · rw [show b.lwrite "" = b.write "\n" from rfl, write_off]
    rfl
  · unfold CodeOut.lwrite
    rw [if_neg (by simpa [String.isEmpty_iff] using hne)]
    unfold CodeOut.iwrite
    rw [write_contents, hind]

/-- Witness for C5 at `twoLevelBuf` (level 2, two-space unit) with text
"x": the non-empty line appends `"  " * 2 ++ "x" ++ "\n"`, i.e.
`"    x\n"`, and the bare newline appends exactly one character. -/
theorem lwrite_line_shape_witness :
    (twoLevelBuf.lwrite "").contents = twoLevelBuf.contents ++ "\n" ∧
    (twoLevelBuf.lwrite "").off = twoLevelBuf.off + 1 ∧
    (twoLevelBuf.lwrite "x").contents =
      twoLevelBuf.contents ++
        (pyStrMul twoLevelBuf.tab twoLevelBuf.level ++ ("x" ++ "\n")) :=
  lwrite_line_shape twoLevelBuf "x" (by decide) (by decide)

/-- Claim C7: on any state satisfying the documented invariant — level
non-negative and the cached prefix equal to `tab * level`, which every
reachable state satisfies — `indent` followed immediately by `unindent`
succeeds (the assert cannot fire) and restores the entire state, so both
the level and the cached prefix are exactly their prior values. -/
theorem indent_unindent_roundtrip (b : CodeOut) (h0 : 0 ≤ b.level)
    (hind : b.ind = pyStrMul b.tab b.level) :
    b.indent.unindent = some b := by
  simp only [CodeOut.indent, CodeOut.unindent, CodeOut.updateIndent]
  rw [Int.add_sub_cancel]
  rw [if_pos h0, ← hind]

/-- Witness for C7: a fresh buffer (level 0, correctly cached empty
prefix) is restored exactly by the `indent`-`unindent` pair. -/
theorem indent_unindent_roundtrip_witness :
    (CodeOut.mkNew "<string>" "" "\t").indent.unindent =
      some (CodeOut.mkNew "<string>" "" "\t") :=
  indent_unindent_roundtrip (CodeOut.mkNew "<string>" "" "\t") (by decide)
    (by decide)

/-- Claim C8: value equality against a string compares exactly against
`contents`; in-place append goes through the `write` path and so appends
to `contents`; string conversion yields `contents`; and after a fresh
buffer receives `+= "a"` then `+= "b"` it compares equal to `"ab"` and
converts to `"ab"`. -/
theorem operator_contracts :
    (∀ (b : CodeOut) (s : String), (b.iconcat s).contents = b.contents ++ s) ∧
    (∀ (b : CodeOut) (s : String), b.beqStr s = true ↔ b.contents = s) ∧
    (∀ b : CodeOut, b.toStr = b.contents) ∧
    (((CodeOut.mkNew "<string>" "" "\t").iconcat "a").iconcat "b").beqStr
        "ab" = true ∧
    (((CodeOut.mkNew "<string>" "" "\t").iconcat "a").iconcat "b").toStr
      = "ab" := by
  refine ⟨fun b s => write_contents b s, fun b s => ?_, fun b => rfl,
    by decide, rfl⟩
  simp [CodeOut.beqStr]

/-- Claim C9: in every reachable state — after construction and after every
public operation, the setters included — the cached indentation prefix
equals the unit string repeated `level` times (Python repetition, empty for
a non-positive level); and setting the unit immediately recomputes the
prefix for the current level while leaving the level and the already
accumulated contents unchanged. -/
theorem ind_cache_invariant :
    (∀ b : CodeOut, Reach b → b.ind = pyStrMul b.tab b.level) ∧
    (∀ (b : CodeOut) (u : String),
      (b.setTab u).ind = pyStrMul u b.level ∧
      (b.setTab u).level = b.level ∧
      (b.setTab u).contents = b.contents) := by
  constructor
  · intro b h
    induction h with
    | mkNew fn ini tab =>
        by_cases hini : ini.isEmpty <;> simp [CodeOut.mkNew, hini] <;> rfl
    | write b t hb ih => exact ih
    | iwrite b t hb ih => exact ih
    | lwrite b t hb ih =>
        rw [(lwrite_indState b t).1, (lwrite_indState b t).2.1,
          (lwrite_indState b t).2.2]
        exact ih
    | newline b hb ih => exact ih
    | writelines b seq hb ih =>
        rw [(writelines_indState seq b).1, (writelines_indState seq b).2.1,
          (writelines_indState seq b).2.2]
        exact ih
    | formatOut b t hb ih => exact ih
    | indent b hb ih => rfl
    | unindent b b2 hb heq ih =>
        simp only [CodeOut.unindent] at heq
        split at heq
        · cases heq; rfl
        · cases heq
    | setTab b v hb ih => rfl
    | setLevel b v hb ih => rfl
    | setFilename b v hb ih => exact ih
    | iconcat b s hb ih => exact ih
  · intro b u
    exact ⟨rfl, rfl, rfl⟩

/-- Witness for C9: the reachable state built by construction followed by
one `indent`, whose cached prefix is one copy of the unit. -/
theorem ind_cache_invariant_witness :
    ((CodeOut.mkNew "<string>" "" "\t").indent).ind =
      pyStrMul ((CodeOut.mkNew "<string>" "" "\t").indent).tab
        ((CodeOut.mkNew "<string>" "" "\t").indent).level :=
  ind_cache_invariant.1 ((CodeOut.mkNew "<string>" "" "\t").indent)
    (Reach.indent (CodeOut.mkNew "<string>" "" "\t")
      (Reach.mkNew "<string>" "" "\t"))

/-- Claim C10: in every state reachable through construction (seed text
included) and the public operations — all of which mutate the buffer only
through the append-only `write` path; no seek or truncate is modelled —
`offset` equals the length of `contents`, `line` equals the number of
newline characters in `contents`, and `column` equals the number of
characters after the last newline of `contents` (its full length when it
contains none). -/
theorem counters_track_contents (b : CodeOut) (h : Reach b) :
    countersDerived b := by
  induction h with
  | mkNew fn ini tab => exact countersDerived_mkNew fn ini tab
  | write b t hb ih => exact countersDerived_write b t ih
  | iwrite b t hb ih => exact countersDerived_write b (b.ind ++ t) ih
  | lwrite b t hb ih => exact countersDerived_lwrite b t ih
  | newline b hb ih => exact countersDerived_lwrite b "" ih
  | writelines b seq hb ih => exact countersDerived_writelines seq b ih
  | formatOut b t hb ih => exact countersDerived_write b t ih
  | indent b hb ih => exact ih
  | unindent b b2 hb heq ih =>
      simp only [CodeOut.unindent] at heq
      split at heq
      · cases heq; exact ih
      · cases heq
  | setTab b v hb ih => exact ih
  | setLevel b v hb ih => exact ih
  | setFilename b v hb ih => exact ih
  | iconcat b s hb ih => exact countersDerived_write b s ih

/-- Witness for C10: a buffer constructed with a newline-containing seed
and then extended with a line write; its counters match its contents. -/
theorem counters_track_contents_witness :
    countersDerived ((CodeOut.mkNew "<f>" "ab\nc" "\t").lwrite "x") :=
  counters_track_contents ((CodeOut.mkNew "<f>" "ab\nc" "\t").lwrite "x")
    (Reach.lwrite (CodeOut.mkNew "<f>" "ab\nc" "\t") "x"
      (Reach.mkNew "<f>" "ab\nc" "\t"))
